import Mathlib

/-!
# Shallow embedding of `src/scripts.js` (Simple Business Landing Page)

This file embeds the interactivity layer of the landing page script into
Lean 4 and proves the specification claims about it.  Each definition mirrors
one function of `src/scripts.js`; the theorems at the end of the file settle
the claims of the specification.

Modelling conventions:
* JavaScript strings are Lean `String`s viewed as lists of characters
  (`String.data`).  The inputs relevant to the claims are ASCII, where
  JavaScript's UTF-16 length coincides with the character count.
* DOM state touched by a handler is made explicit as a structure; a handler
  is a function from the pre-state (plus event data) to the post-state.
* Timers (`setTimeout` / `clearTimeout`) are modelled with explicit ids and
  an active-timer list, so that clearing an already-fired timer is visibly a
  no-op, exactly as in the browser.
-/

namespace LandingPage

/-! ## JavaScript string primitives -/

/-- Characters treated as whitespace by JavaScript's `String.prototype.trim`
and by the regex class `\s`: ECMAScript WhiteSpace and LineTerminator code
points (the Unicode space separators beyond U+00A0 never occur in the inputs
of this development). -/
def jsWhitespace (c : Char) : Bool :=
  c = ' ' || c = '\t' || c = '\n' || c = '\r' || c = '\x0b' || c = '\x0c' ||
  c = '\u00A0' || c = '\uFEFF' || c = '\u2028' || c = '\u2029'

/-- `String.prototype.trim`: drop leading and trailing whitespace. -/
def jsTrim (s : String) : String :=
  ⟨((s.data.dropWhile jsWhitespace).reverse.dropWhile jsWhitespace).reverse⟩

/-! ## `isValidEmail` (src/scripts.js lines 18–21)

The source tests the string against the regex
`/^[^\s@]+@[^\s@]+\.[^\s@]+$/`.  We embed the regex as a backtracking
matcher over the character list, one function per position in the pattern.
-/

/-- The character class `[^\s@]`: anything that is neither whitespace
nor `@`. -/
def emailAtomChar (c : Char) : Bool :=
  !jsWhitespace c && c ≠ '@'

/-- Matches `[^\s@]+$` (one or more atom characters, to the end). -/
def atomPlus (l : List Char) : Bool :=
  !l.isEmpty && l.all emailAtomChar

/-- Matches `[^\s@]*\.[^\s@]+$`: some atom characters, then a literal dot,
then a nonempty atom run.  The dot itself is an atom character, so the
split point is found by backtracking: either the current character is the
literal dot of the pattern, or it is consumed by the leading `[^\s@]*`. -/
def dotTailMatch : List Char → Bool
  | [] => false
  | c :: rest => (c = '.' && atomPlus rest) || (emailAtomChar c && dotTailMatch rest)

/-- Matches `[^\s@]+\.[^\s@]+$` (the part of the pattern after the `@`). -/
def domainMatch : List Char → Bool
  | [] => false
  | c :: rest => emailAtomChar c && dotTailMatch rest

/-- Matches `[^\s@]*@[^\s@]+\.[^\s@]+$`.  Since `@` is not an atom
character, the split at the `@` is deterministic. -/
def localRestMatch : List Char → Bool
  | [] => false
  | c :: rest => (c = '@' && domainMatch rest) || (emailAtomChar c && localRestMatch rest)

/-- Matches the whole anchored regex `^[^\s@]+@[^\s@]+\.[^\s@]+$`. -/
def emailRegexMatch : List Char → Bool
  | [] => false
  | c :: rest => emailAtomChar c && localRestMatch rest

/-- `isValidEmail` (src/scripts.js lines 18–21): test the string against
`/^[^\s@]+@[^\s@]+\.[^\s@]+$/`. -/
def isValidEmail (email : String) : Bool :=
  emailRegexMatch email.data

/-! ## `validateField` (src/scripts.js lines 230–260) -/

/-- The slice of a form control that `validateField` reads: its `id`, its
`type` property, whether it carries the `required` attribute, and its
current value. -/
structure Field where
  id : String
  fieldType : String
  required : Bool
  value : String
  deriving Repr, DecidableEq

/-- What `validateField` writes back: the returned validity flag, the text
stored into the `{id}-error` element, and the `aria-invalid` attribute set
on the control. -/
structure FieldResult where
  isValid : Bool
  errorMessage : String
  ariaInvalid : Bool
  deriving Repr, DecidableEq

/-- `validateField` (src/scripts.js lines 230–260): trim the value, then run
the three checks in order (required/empty, email format, message minimum
length); the first failing check fixes the message, otherwise the field is
valid with an empty message.  `aria-invalid` is set to the negation of the
validity flag. -/
def validateField (field : Field) : FieldResult :=
  let value := jsTrim field.value
  if field.required = true ∧ value = "" then
    { isValid := false, errorMessage := "This field is required", ariaInvalid := true }
  else if field.fieldType = "email" ∧ value ≠ "" ∧ isValidEmail value = false then
    { isValid := false, errorMessage := "Please enter a valid email address", ariaInvalid := true }
  else if field.id = "message" ∧ value ≠ "" ∧ value.length < 10 then
    { isValid := false, errorMessage := "Message must be at least 10 characters", ariaInvalid := true }
  else
    { isValid := true, errorMessage := "", ariaInvalid := false }

/-! ## Smooth scroll click handler (src/scripts.js lines 48–79)

`initSmoothScroll` attaches the handler below to every `a[href^="#"]`.
We model the effects of one click: whether default navigation was
prevented, whether the target was scrolled into view and focused (and with
which focus options), and what was done to the session history.
-/

/-- What the handler did to the session history.  `pushed` is
`history.pushState`, which *adds* a new session history entry; `replaced`
would be `history.replaceState`, which replaces the current entry. -/
inductive HistoryAction where
  | none
  | pushed
  | replaced
  deriving Repr, DecidableEq

/-- Observable effects of one click on an anchor link. -/
structure ClickEffects where
  preventedDefault : Bool
  scrolledIntoView : Bool
  focusedTarget : Bool
  focusPreventScroll : Bool
  historyAction : HistoryAction
  deriving Repr, DecidableEq

/-- A click for which the handler falls through (early return or missing
target): default anchor behavior applies unmodified. -/
def defaultClick : ClickEffects :=
  { preventedDefault := false, scrolledIntoView := false, focusedTarget := false,
    focusPreventScroll := false, historyAction := .none }

/-- The click handler of `initSmoothScroll` (src/scripts.js lines 52–77):
read the `href`; return early on the bare `"#"`; if the document has an
element matching the fragment, prevent default, `scrollIntoView`, focus
with `preventScroll: true`, and — when `history.pushState` exists — call
`history.pushState(null, null, targetId)`. -/
def anchorClickHandler (href : String) (targetExists : Bool)
    (pushStateSupported : Bool) : ClickEffects :=
  if href = "#" then defaultClick
  else if targetExists then
    { preventedDefault := true, scrolledIntoView := true, focusedTarget := true,
      focusPreventScroll := true,
      historyAction := if pushStateSupported then .pushed else .none }
  else defaultClick

/-! ## Form submission (src/scripts.js lines 320–363)

`handleFormSubmission` captures the submit button's label, enters a
`try`/`catch`/`finally`: the `try` sets the button busy/disabled with a
pending label, awaits the simulated API call, shows the success message,
resets the form and clears the `aria-invalid` flags; the `catch` shows the
error message; the `finally` restores the button.  We model the awaited
promise's outcome as a parameter and the resulting DOM state as a record.
-/

/-- State of the submit button (`disabled`, `aria-busy`, `textContent`). -/
structure SubmitButton where
  disabled : Bool
  ariaBusy : Bool
  text : String
  deriving Repr, DecidableEq

/-- Whether the awaited promise resolves or rejects. -/
inductive SubmitOutcome where
  | resolved
  | rejected
  deriving Repr, DecidableEq

/-- Net effect of `handleFormSubmission` once it has run to completion. -/
structure SubmissionResult where
  finalButton : SubmitButton
  /-- The feedback message passed to `showFormMessage`: text and type. -/
  message : String × String
  /-- Whether `form.reset()` was called. -/
  formReset : Bool
  /-- Whether every `aria-invalid` flag was set back to `"false"`. -/
  invalidFlagsCleared : Bool
  deriving Repr, DecidableEq

/-- `handleFormSubmission` (src/scripts.js lines 320–363) for a form whose
submit button exists, as a function of the button's pre-state and of the
awaited promise's outcome.  The `finally` block runs on both paths and
restores `disabled`, `aria-busy` and the original label. -/
def handleFormSubmission (button : SubmitButton) (outcome : SubmitOutcome) :
    SubmissionResult :=
  let originalText := button.text
  match outcome with
  | .resolved =>
      { finalButton := { disabled := false, ariaBusy := false, text := originalText }
        message := ("Thank you! Your message has been sent successfully.", "success")
        formReset := true
        invalidFlagsCleared := true }
  | .rejected =>
      { finalButton := { disabled := false, ariaBusy := false, text := originalText }
        message := ("Sorry, there was an error sending your message. Please try again.", "error")
        formReset := false
        invalidFlagsCleared := false }

/-- The simulated API call (src/scripts.js line 338):
`new Promise(resolve => setTimeout(resolve, 1500))`.  The executor only
ever calls `resolve`, so the promise always resolves. -/
def simulateApiCall : SubmitOutcome :=
  .resolved

/-- The submission path of the current code: `handleFormSubmission` awaiting
the fixed-delay simulated API call. -/
def currentFormSubmission (button : SubmitButton) : SubmissionResult :=
  handleFormSubmission button simulateApiCall

/-! ## Scroll-triggered reveal (src/scripts.js lines 409–440)

`initScrollAnimations` observes each animated element with an
`IntersectionObserver` whose callback adds the `reveal-visible` class on
intersection and then unobserves the element.  We model one element's life:
its observer registration and its `reveal-visible` class, driven by a
sequence of intersection notifications (`true` = the element intersects the
viewport on that notification, `false` = it does not).
-/

/-- Per-element animation state: whether the observer still watches it and
whether it carries the `reveal-visible` class. -/
structure RevealState where
  observed : Bool
  revealed : Bool
  deriving Repr, DecidableEq

/-- Initial state after `initScrollAnimations`: the element has the
`reveal` class and is observed, with no `reveal-visible` class. -/
def revealInit : RevealState :=
  { observed := true, revealed := false }

/-- One intersection notification for the element (src/scripts.js lines
421–428).  The callback only runs for elements the observer still watches;
when `isIntersecting` it adds `reveal-visible` and calls
`observer.unobserve(entry.target)`. -/
def revealStep (s : RevealState) (isIntersecting : Bool) : RevealState :=
  if s.observed && isIntersecting then
    { observed := false, revealed := true }
  else
    s

/-- Run a sequence of intersection notifications. -/
def revealRun (s : RevealState) (events : List Bool) : RevealState :=
  events.foldl revealStep s

/-- Number of notifications in a run that transition the element to
revealed (apply the `reveal-visible` class). -/
def revealCount (s : RevealState) : List Bool → Nat
  | [] => 0
  | e :: es =>
      (if (revealStep s e).revealed && !s.revealed then 1 else 0) + revealCount (revealStep s e) es

/-! ## Mobile menu (src/scripts.js lines 112–219)

`initMobileMenu` creates a toggle button when the viewport is narrower than
768px and re-evaluates on (debounced) resize; `createMobileMenuButton`
builds the button, wires its click handler, and registers one
document-level click listener and one document-level keydown listener that
close the menu on outside clicks and on Escape.  Those document-level
listeners are never removed, and they keep a reference to *their* button,
so they survive the button's removal from the DOM.

The model keeps every button ever created (in creation order) together
with its `aria-expanded` attribute and whether it is currently attached to
the DOM; the nav's `mobile-menu-open` class, `aria-hidden` attribute and
inline `display` style; and the number of document-level listeners of each
kind.  Button focus is not modelled (no claim mentions it).
-/

/-- One toggle button ever created: its `aria-expanded` attribute and
whether it is currently attached to the DOM. -/
structure ButtonState where
  ariaExpanded : Bool
  inDom : Bool
  deriving Repr, DecidableEq

/-- The nav's inline `style.display`: untouched by the script, `"none"`,
or `"flex"`. -/
inductive Display where
  | unset
  | hiddenNone
  | flex
  deriving Repr, DecidableEq

/-- Joint state of the mobile-menu module. -/
structure MenuSys where
  width : Nat
  /-- Every button ever created, in creation order (index `i` also names
  the document-level listener pair registered when button `i` was
  created). -/
  buttons : List ButtonState
  /-- Does the nav carry the `mobile-menu-open` class? -/
  navClass : Bool
  /-- The nav's `aria-hidden` attribute (`none` = attribute absent). -/
  ariaHidden : Option Bool
  display : Display
  docClickListeners : Nat
  docKeydownListeners : Nat
  deriving Repr, DecidableEq

/-- The menu is visible iff its inline display style is `"flex"` (the
handlers always set `none` or `flex` while a toggle exists). -/
def menuVisible (s : MenuSys) : Bool :=
  s.display = .flex

/-- Index of the first in-DOM button of a creation-ordered button list. -/
def findInDom : List ButtonState → Option Nat
  | [] => Option.none
  | b :: rest => if b.inDom then some 0 else (findInDom rest).map (· + 1)

/-- Index of the toggle button currently in the DOM
(`document.querySelector('.mobile-menu-toggle')` — the first one in
document order). -/
def inDomIdx (s : MenuSys) : Option Nat :=
  findInDom s.buttons

/-- Number of toggle buttons currently attached to the DOM. -/
def inDomCount (s : MenuSys) : Nat :=
  s.buttons.countP (·.inDom)

/-- The click handler wired on button `i` (src/scripts.js lines 181–201):
read the button's `aria-expanded`, negate it, mirror the old value into
the nav's `aria-hidden`, toggle the `mobile-menu-open` class, and set the
display to `"none"` (when it was expanded) or `"flex"` (when it was
collapsed).  `HTMLElement.click()` dispatches to this handler even when
the button is no longer attached to the DOM. -/
def buttonClick (s : MenuSys) (i : Nat) : MenuSys :=
  match s.buttons[i]? with
  | Option.none => s
  | some b =>
      let isExpanded := b.ariaExpanded
      { s with
        buttons := s.buttons.set i { b with ariaExpanded := !isExpanded }
        ariaHidden := some isExpanded
        navClass := !s.navClass
        display := if isExpanded then .hiddenNone else .flex }

/-- `createMobileMenuButton` (src/scripts.js lines 140–219): build a new
collapsed button (`aria-expanded="false"`), set the nav's
`aria-hidden="true"` and `display: none`, register one document-level
click listener and one document-level keydown listener bound to this
button, and append the button to the nav container. -/
def createButton (s : MenuSys) : MenuSys :=
  { s with
    buttons := s.buttons ++ [{ ariaExpanded := false, inDom := true }]
    ariaHidden := some true
    display := .hiddenNone
    docClickListeners := s.docClickListeners + 1
    docKeydownListeners := s.docKeydownListeners + 1 }

/-- The (debounced) resize handler (src/scripts.js lines 123–133) after the
window width has changed to `w`: create the button when the width dropped
below 768 and no toggle exists; when the width is at least 768 and a
toggle exists, remove that button from the DOM, drop the
`mobile-menu-open` class and the `aria-hidden` attribute (the inline
`display` style and the document-level listeners are untouched). -/
def resizeStep (s : MenuSys) (w : Nat) : MenuSys :=
  let s' := { s with width := w }
  match inDomIdx s' with
  | Option.none => if w < 768 then createButton s' else s'
  | some i =>
      if w ≥ 768 then
        match s'.buttons[i]? with
        | Option.none => s'
        | some b =>
            { s' with
              buttons := s'.buttons.set i { b with inDom := false }
              navClass := false
              ariaHidden := Option.none }
      else s'

/-- One registered document-level click listener (src/scripts.js lines
204–208), for the button created as number `i`: if the click landed
outside the nav container and the nav has the `mobile-menu-open` class,
call `button.click()`. -/
def outsideClickListener (s : MenuSys) (i : Nat) : MenuSys :=
  if s.navClass then buttonClick s i else s

/-- A document click outside the nav container: the registered
document-level click listeners fire in registration order, each
re-reading the nav's class. -/
def outsideClick (s : MenuSys) : MenuSys :=
  (List.range s.buttons.length).foldl outsideClickListener s

/-- An Escape keydown (src/scripts.js lines 211–216): each registered
document-level keydown listener fires in registration order; when the nav
has the `mobile-menu-open` class it calls `button.click()` (and focuses its
button, which the model does not track). -/
def escapeKey (s : MenuSys) : MenuSys :=
  (List.range s.buttons.length).foldl outsideClickListener s

/-- A user click on the toggle button currently in the DOM (the click
target is inside the nav container, so the document-level outside-click
listeners all see `navContainer.contains(e.target)` and do nothing). -/
def toggleClick (s : MenuSys) : MenuSys :=
  match inDomIdx s with
  | Option.none => s
  | some i => buttonClick s i

/-- The events the mobile-menu module reacts to. -/
inductive MenuEvent where
  | resize (w : Nat)
  | toggleClick
  | outsideClick
  | escapeKey
  deriving Repr, DecidableEq

/-- Dispatch one event. -/
def menuStep (s : MenuSys) : MenuEvent → MenuSys
  | .resize w => resizeStep s w
  | .toggleClick => toggleClick s
  | .outsideClick => outsideClick s
  | .escapeKey => escapeKey s

/-- Run a sequence of events. -/
def menuRun (s : MenuSys) (events : List MenuEvent) : MenuSys :=
  events.foldl menuStep s

/-- `initMobileMenu` (src/scripts.js lines 112–134) on a page whose nav and
nav container exist: start from the untouched DOM at window width `w0` and
create the toggle right away when the viewport is narrow. -/
def initMobileMenu (w0 : Nat) : MenuSys :=
  let s : MenuSys :=
    { width := w0, buttons := [], navClass := false, ariaHidden := Option.none,
      display := .unset, docClickListeners := 0, docKeydownListeners := 0 }
  if w0 < 768 then createButton s else s

/-- The consistency half of the menu invariant claimed by the spec: every
toggle attached to the DOM agrees with the menu (menu visible iff the
toggle's `aria-expanded` is set). -/
def menuConsistent (s : MenuSys) : Prop :=
  ∀ b ∈ s.buttons, b.inDom = true → menuVisible s = b.ariaExpanded

instance (s : MenuSys) : Decidable (menuConsistent s) := by
  unfold menuConsistent; infer_instance

/-! ## `debounce` (src/scripts.js lines 29–39)

```js
function debounce(func, wait) {
  let timeout;
  return function executedFunction(...args) {
    const later = () => {
      clearTimeout(timeout);
      func(...args);
    };
    clearTimeout(timeout);
    timeout = setTimeout(later, wait);
  };
}
```

The model makes the browser timer machinery explicit: `setTimeout` returns
a fresh id and adds an active timer; `clearTimeout` removes the timer with
the given id from the active set and is a no-op on an id that already
fired (or on `undefined`, modelled as `Option.none`).  The debounced
function is driven by a list of invocation times; timers that come due are
fired before the next invocation is processed (a timer due exactly at an
invocation's time fires first), and all timers still pending after the
last invocation fire at their scheduled times.  `func(...args)` is
recorded as a fire event `(time, invocation index)`.

The wrapper as written performs an extra `clearTimeout(timeout)` inside
the scheduled callback; the `extraClear` flag switches between that
version (`true`) and the standard debounce that clears only before
scheduling (`false`).
-/

/-- A pending browser timer: its id, due time, and the invocation index
whose arguments the scheduled callback closes over. -/
structure Timer where
  id : Nat
  fireTime : Nat
  arg : Nat
  deriving Repr, DecidableEq

/-- State of one debounced function plus the browser timer queue. -/
structure DebSt where
  /-- Timers scheduled and not yet fired or cleared. -/
  active : List Timer
  /-- The wrapper's captured `timeout` variable (`Option.none` =
  still `undefined`). -/
  timeoutVar : Option Nat
  /-- Source of fresh timer ids. -/
  nextId : Nat
  /-- Calls of `func`, as `(time, invocation index)`, in execution order. -/
  fired : List (Nat × Nat)
  deriving Repr, DecidableEq

/-- `clearTimeout(x)`: drop the timer with id `x` if it is still pending;
no-op when `x` is `undefined` or names a timer that already fired. -/
def clearTimeoutOn (s : DebSt) (o : Option Nat) : DebSt :=
  match o with
  | Option.none => s
  | some i => { s with active := s.active.filter (fun tm => tm.id ≠ i) }

/-- Run the scheduled callback of a due timer (the timer itself has
already been dequeued).  With `extraClear` this is `later`
(src/scripts.js lines 32–35): `clearTimeout(timeout)` on the *current*
value of the captured variable, then `func(...args)`; without it only
`func(...args)` runs. -/
def fireTimer (extraClear : Bool) (s : DebSt) (tm : Timer) : DebSt :=
  let s' := if extraClear then clearTimeoutOn s s.timeoutVar else s
  { s' with fired := s'.fired ++ [(tm.fireTime, tm.arg)] }

/-- Advance the clock to time `t`: dequeue every pending timer that is due
(`fireTime ≤ t`) and run its callback, in scheduling order. -/
def fireDue (extraClear : Bool) (t : Nat) (s : DebSt) : DebSt :=
  let due := s.active.filter (fun tm => tm.fireTime ≤ t)
  let rest := s.active.filter (fun tm => ¬ tm.fireTime ≤ t)
  due.foldl (fireTimer extraClear) { s with active := rest }

/-- One invocation of the debounced wrapper at time `t` with argument
index `arg` (src/scripts.js lines 31–38): timers due by then have fired;
then `clearTimeout(timeout)` and `timeout = setTimeout(later, wait)`. -/
def invoke (extraClear : Bool) (wait : Nat) (s : DebSt) (t : Nat) (arg : Nat) : DebSt :=
  let s₁ := fireDue extraClear t s
  let s₂ := clearTimeoutOn s₁ s₁.timeoutVar
  { s₂ with
    active := s₂.active ++ [{ id := s₂.nextId, fireTime := t + wait, arg := arg }]
    timeoutVar := some s₂.nextId
    nextId := s₂.nextId + 1 }

/-- After the last invocation, let every still-pending timer fire. -/
def finishTimers (extraClear : Bool) (s : DebSt) : DebSt :=
  s.active.foldl (fireTimer extraClear) { s with active := [] }

/-- Process the invocations at the given times (argument indices counted
from `k`), then drain the timer queue. -/
def runFrom (extraClear : Bool) (wait : Nat) : DebSt → Nat → List Nat → DebSt
  | s, _, [] => finishTimers extraClear s
  | s, k, t :: ts => runFrom extraClear wait (invoke extraClear wait s t k) (k + 1) ts

/-- Fresh debounced-wrapper state: no timer yet, `timeout` undefined. -/
def debounceInit : DebSt :=
  { active := [], timeoutVar := Option.none, nextId := 0, fired := [] }

/-- A complete run of the debounced wrapper over the invocation times
`ts`.  `extraClear := true` is the wrapper as written in the source;
`extraClear := false` is the standard debounce that clears only before
scheduling. -/
def debounceRun (extraClear : Bool) (wait : Nat) (ts : List Nat) : DebSt :=
  runFrom extraClear wait debounceInit 0 ts

/-- Reference behavior of a debounce: invocation `k` at time `t` results
in a call of `func` at `t + wait` exactly when no further invocation
happens before that moment; the last invocation always does. -/
def debounceSpecFires (wait : Nat) : Nat → List Nat → List (Nat × Nat)
  | _, [] => []
  | k, [t] => [(t + wait, k)]
  | k, t₁ :: t₂ :: ts =>
      (if t₁ + wait ≤ t₂ then [(t₁ + wait, k)] else []) ++
        debounceSpecFires wait (k + 1) (t₂ :: ts)

/-! ## Helper lemmas -/

/-- A string whose characters are all whitespace trims to the empty
string. -/
theorem jsTrim_of_all_whitespace (s : String)
    (h : ∀ c ∈ s.data, jsWhitespace c = true) : jsTrim s = "" := by
  unfold jsTrim
  have h₁ : s.data.dropWhile jsWhitespace = [] :=
    List.dropWhile_eq_nil_iff.mpr fun c hc => h c hc
  rw [h₁]
  rfl

/-- `revealed` is never removed by later notifications. -/
theorem revealStep_mono (s : RevealState) (e : Bool) (h : s.revealed = true) :
    (revealStep s e).revealed = true := by
  unfold revealStep
  split <;> simp [h]

/-- Once the observer no longer watches the element, notifications do
nothing. -/
theorem revealRun_unobserved (s : RevealState) (h : s.observed = false) :
    ∀ events, revealRun s events = s := by
  intro events
  induction events with
  | nil => rfl
  | cons e es ih =>
      have hstep : revealStep s e = s := by
        unfold revealStep
        simp [h]
      simp [revealRun, List.foldl_cons, hstep]
      simpa [revealRun, hstep] using ih

/-- An unwatched element is never counted again. -/
theorem revealCount_unobserved (s : RevealState) (h : s.observed = false) :
    ∀ events, revealCount s events = 0 := by
  intro events
  induction events with
  | nil => rfl
  | cons e es ih =>
      have hstep : revealStep s e = s := by
        unfold revealStep
        simp [h]
      simp [revealCount, hstep, ih, h]

/-- `atomPlus` accepts exactly the nonempty all-atom lists. -/
theorem atomPlus_iff (l : List Char) :
    atomPlus l = true ↔ l ≠ [] ∧ ∀ x ∈ l, emailAtomChar x = true := by
  cases l <;> simp [atomPlus, List.all_eq_true]

/-- Language of `[^\s@]*\.[^\s@]+$`: a (possibly empty) atom run, a dot,
a nonempty atom run. -/
theorem dotTailMatch_iff (l : List Char) :
    dotTailMatch l = true ↔
      ∃ b c, l = b ++ '.' :: c ∧ (∀ x ∈ b, emailAtomChar x = true) ∧
        c ≠ [] ∧ ∀ x ∈ c, emailAtomChar x = true := by
  induction l with
  | nil =>
      refine iff_of_false (by simp [dotTailMatch]) ?_
      rintro ⟨b, c, heq, -⟩
      exact absurd heq (by simp)
  | cons a l ih =>
      simp only [dotTailMatch, Bool.or_eq_true, Bool.and_eq_true, decide_eq_true_eq]
      constructor
      · rintro (⟨hdot, hplus⟩ | ⟨hatom, htail⟩)
        · obtain ⟨hne, hall⟩ := (atomPlus_iff l).mp hplus
          exact ⟨[], l, by simp [hdot], by simp, hne, hall⟩
        · obtain ⟨b, c, heq, hb, hc, hcall⟩ := ih.mp htail
          exact ⟨a :: b, c, by simp [heq], by simpa [hatom] using hb, hc, hcall⟩
      · rintro ⟨b, c, heq, hb, hc, hcall⟩
        cases b with
        | nil =>
            simp only [List.nil_append, List.cons.injEq] at heq
            obtain ⟨h₁, h₂⟩ := heq
            subst h₂
            exact Or.inl ⟨h₁, (atomPlus_iff l).mpr ⟨hc, hcall⟩⟩
        | cons x b' =>
            simp only [List.cons_append, List.cons.injEq] at heq
            obtain ⟨h₁, h₂⟩ := heq
            subst h₁
            exact Or.inr ⟨hb a (by simp),
              ih.mpr ⟨b', c, h₂, fun y hy => hb y (by simp [hy]), hc, hcall⟩⟩

/-- Language of `[^\s@]+\.[^\s@]+$` (the part after the `@`): the dot must
be neither the first nor the last character. -/
theorem domainMatch_iff (l : List Char) :
    domainMatch l = true ↔
      ∃ b c, l = b ++ '.' :: c ∧ b ≠ [] ∧ c ≠ [] ∧
        (∀ x ∈ b, emailAtomChar x = true) ∧ ∀ x ∈ c, emailAtomChar x = true := by
  cases l with
  | nil =>
      refine iff_of_false (by simp [domainMatch]) ?_
      rintro ⟨b, c, heq, -⟩
      exact absurd heq (by simp)
  | cons a l =>
      simp only [domainMatch, Bool.and_eq_true]
      constructor
      · rintro ⟨hatom, htail⟩
        obtain ⟨b, c, heq, hb, hc, hcall⟩ := (dotTailMatch_iff l).mp htail
        exact ⟨a :: b, c, by simp [heq], by simp, hc,
          by simpa [hatom] using hb, hcall⟩
      · rintro ⟨b, c, heq, hbne, hc, hb, hcall⟩
        cases b with
        | nil => exact absurd rfl hbne
        | cons x b' =>
            simp only [List.cons_append, List.cons.injEq] at heq
            obtain ⟨h₁, h₂⟩ := heq
            subst h₁
            exact ⟨hb a (by simp), (dotTailMatch_iff l).mpr
              ⟨b', c, h₂, fun y hy => hb y (by simp [hy]), hc, hcall⟩⟩

/-- Language of `[^\s@]*@[^\s@]+\.[^\s@]+$`. -/
theorem localRestMatch_iff (l : List Char) :
    localRestMatch l = true ↔
      ∃ a r, l = a ++ '@' :: r ∧ (∀ x ∈ a, emailAtomChar x = true) ∧
        domainMatch r = true := by
  induction l with
  | nil =>
      refine iff_of_false (by simp [localRestMatch]) ?_
      rintro ⟨a, r, heq, -⟩
      exact absurd heq (by simp)
  | cons x l ih =>
      simp only [localRestMatch, Bool.or_eq_true, Bool.and_eq_true, decide_eq_true_eq]
      constructor
      · rintro (⟨hat, hdom⟩ | ⟨hatom, hrest⟩)
        · exact ⟨[], l, by simp [hat], by simp, hdom⟩
        · obtain ⟨a, r, heq, ha, hdom⟩ := ih.mp hrest
          exact ⟨x :: a, r, by simp [heq], by simpa [hatom] using ha, hdom⟩
      · rintro ⟨a, r, heq, ha, hdom⟩
        cases a with
        | nil =>
            simp only [List.nil_append, List.cons.injEq] at heq
            obtain ⟨h₁, h₂⟩ := heq
            subst h₂
            exact Or.inl ⟨h₁, hdom⟩
        | cons y a' =>
            simp only [List.cons_append, List.cons.injEq] at heq
            obtain ⟨h₁, h₂⟩ := heq
            subst h₁
            exact Or.inr ⟨ha x (by simp),
              ih.mpr ⟨a', r, h₂, fun z hz => ha z (by simp [hz]), hdom⟩⟩

/-! ## Claim theorems: form validation and submission -/

/-- C2: `validateField` applies the validation rules in exactly this
precedence, first match wins: (1) required and trimmed value empty
(including whitespace-only values) is invalid with "This field is
required"; (2) an email-typed field with non-empty (trimmed) value failing
the email pattern is invalid with "Please enter a valid email address";
(3) the `message` field with non-empty (trimmed) value of trimmed length
less than 10 is invalid with "Message must be at least 10 characters";
(4) otherwise the field is valid and the message is cleared. -/
theorem validateField_precedence (f : Field) :
    (f.required = true → jsTrim f.value = "" →
        validateField f = ⟨false, "This field is required", true⟩) ∧
    (f.required = true → (∀ c ∈ f.value.data, jsWhitespace c = true) →
        validateField f = ⟨false, "This field is required", true⟩) ∧
    (¬(f.required = true ∧ jsTrim f.value = "") →
      f.fieldType = "email" → jsTrim f.value ≠ "" →
      isValidEmail (jsTrim f.value) = false →
        validateField f = ⟨false, "Please enter a valid email address", true⟩) ∧
    (¬(f.required = true ∧ jsTrim f.value = "") →
      ¬(f.fieldType = "email" ∧ jsTrim f.value ≠ "" ∧ isValidEmail (jsTrim f.value) = false) →
      f.id = "message" → jsTrim f.value ≠ "" → (jsTrim f.value).length < 10 →
        validateField f = ⟨false, "Message must be at least 10 characters", true⟩) ∧
    (¬(f.required = true ∧ jsTrim f.value = "") →
      ¬(f.fieldType = "email" ∧ jsTrim f.value ≠ "" ∧ isValidEmail (jsTrim f.value) = false) →
      ¬(f.id = "message" ∧ jsTrim f.value ≠ "" ∧ (jsTrim f.value).length < 10) →
        validateField f = ⟨true, "", false⟩) := by
  refine ⟨?_, ?_, ?_, ?_, ?_⟩ <;> intros <;> unfold validateField <;> dsimp only <;>
    split_ifs <;> first
      | rfl
      | tauto
      | (exact absurd (jsTrim_of_all_whitespace f.value (by assumption)) (by tauto))

/-- Witness for C2 at concrete fields: a whitespace-only required value,
an invalid email, a short message, and a valid field. -/
theorem validateField_precedence_witness :
    validateField ⟨"name", "text", true, "   "⟩ =
      ⟨false, "This field is required", true⟩ ∧
    validateField ⟨"email", "email", true, " not-an-email "⟩ =
      ⟨false, "Please enter a valid email address", true⟩ ∧
    validateField ⟨"message", "textarea", true, "too short"⟩ =
      ⟨false, "Message must be at least 10 characters", true⟩ ∧
    validateField ⟨"message", "textarea", true, "long enough!"⟩ = ⟨true, "", false⟩ :=
  ⟨(validateField_precedence ⟨"name", "text", true, "   "⟩).1 rfl (by decide),
   (validateField_precedence ⟨"email", "email", true, " not-an-email "⟩).2.2.1
      (by decide) rfl (by decide) (by decide),
   (validateField_precedence ⟨"message", "textarea", true, "too short"⟩).2.2.2.1
      (by decide) (by decide) rfl (by decide) (by decide),
   (validateField_precedence ⟨"message", "textarea", true, "long enough!"⟩).2.2.2.2
      (by decide) (by decide) (by decide)⟩

/-- C4: for the message field (a non-email control with id `message`), a
value of trimmed length 9 is invalid with the minimum-length message and a
value of trimmed length 10 is valid — the boundary sits at exactly 10
characters after trimming. -/
theorem messageField_length_boundary (f : Field) (hid : f.id = "message")
    (hty : f.fieldType ≠ "email") :
    ((jsTrim f.value).length = 9 →
        validateField f = ⟨false, "Message must be at least 10 characters", true⟩) ∧
    ((jsTrim f.value).length = 10 → validateField f = ⟨true, "", false⟩) := by
  constructor <;> intro hlen <;>
    (have hne : jsTrim f.value ≠ "" := by
      intro he
      rw [he] at hlen
      simp at hlen) <;>
    (have h₁ : ¬(f.required = true ∧ jsTrim f.value = "") := fun h => hne h.2) <;>
    (have h₂ : ¬(f.fieldType = "email" ∧ jsTrim f.value ≠ "" ∧
        isValidEmail (jsTrim f.value) = false) := fun h => hty h.1) <;>
    unfold validateField <;> dsimp only <;> rw [if_neg h₁, if_neg h₂]
  · rw [if_pos ⟨hid, hne, by omega⟩]
  · rw [if_neg (fun h => absurd h.2.2 (by omega))]

/-- Witness for C4: the 9/10 boundary at concrete values. -/
theorem messageField_length_boundary_witness :
    validateField ⟨"message", "textarea", true, "123456789"⟩ =
      ⟨false, "Message must be at least 10 characters", true⟩ ∧
    validateField ⟨"message", "textarea", true, "1234567890"⟩ = ⟨true, "", false⟩ :=
  ⟨(messageField_length_boundary ⟨"message", "textarea", true, "123456789"⟩ rfl
      (by decide)).1 (by decide),
   (messageField_length_boundary ⟨"message", "textarea", true, "1234567890"⟩ rfl
      (by decide)).2 (by decide)⟩

/-- C5: whatever the outcome of the simulated submission (resolved or
rejected), `handleFormSubmission` re-enables the submit control, clears
its busy flag, and restores the label it had before submission (the
`finally` block). -/
theorem submitButton_always_restored (button : SubmitButton) (outcome : SubmitOutcome) :
    (handleFormSubmission button outcome).finalButton.disabled = false ∧
    (handleFormSubmission button outcome).finalButton.ariaBusy = false ∧
    (handleFormSubmission button outcome).finalButton.text = button.text := by
  cases outcome <;> exact ⟨rfl, rfl, rfl⟩

/-- C9: the fixed-delay promise of the simulated API call always resolves,
so the submission of a valid form always takes the success path: success
message, form reset, `aria-invalid` flags cleared; the error message is
never shown. -/
theorem catch_branch_unreachable (button : SubmitButton) :
    simulateApiCall = SubmitOutcome.resolved ∧
    currentFormSubmission button =
      { finalButton := { disabled := false, ariaBusy := false, text := button.text }
        message := ("Thank you! Your message has been sent successfully.", "success")
        formReset := true
        invalidFlagsCleared := true } ∧
    (currentFormSubmission button).message.2 ≠ "error" := by
  refine ⟨rfl, rfl, ?_⟩
  intro h
  simp [currentFormSubmission, handleFormSubmission, simulateApiCall] at h

/-! ## Claim theorems: the email predicate (C3) -/

/-- The acceptance condition in the words of the spec claim (for comparison
with the code's `isValidEmail`): no whitespace, exactly one `@` with
non-empty parts on both sides, and at least one `.` somewhere after the
`@`. -/
def specEmailAccepts (s : String) : Bool :=
  let l := s.data
  let beforeAt := l.takeWhile (fun c => c ≠ '@')
  let afterAt := (l.dropWhile (fun c => c ≠ '@')).drop 1
  l.all (fun c => !jsWhitespace c) && l.count '@' = 1 &&
    !beforeAt.isEmpty && !afterAt.isEmpty && afterAt.contains '.'

/-- C3 counterexample: `"a@b."` has no whitespace, exactly one `@` with
non-empty parts on both sides, and a `.` after the `@`, so the claimed
characterization accepts it — but the regex rejects it (the dot may not be
the final character).  The claim's concrete examples do hold: the code
rejects `"not-an-email"` and accepts `"a@b.co"`. -/
theorem isValidEmail_claim_counterexample :
    specEmailAccepts "a@b." = true ∧ isValidEmail "a@b." = false ∧
    isValidEmail "not-an-email" = false ∧ isValidEmail "a@b.co" = true := by
  decide

/-- C3 (amended): `isValidEmail` rejects `"not-an-email"` and accepts
`"a@b.co"` (see the counterexample theorem for those instances); in
general it accepts exactly the strings that split as
`local ++ "@" ++ b ++ "." ++ c` where `local`, `b`, `c` are nonempty and
free of whitespace and `@` — i.e. no whitespace, exactly one `@` with
non-empty parts on both sides, and after the `@` at least one `.` that is
neither the character immediately following the `@` nor the final
character. -/
theorem isValidEmail_characterization (s : String) :
    isValidEmail s = true ↔
      ∃ a b c : List Char,
        s.data = a ++ '@' :: (b ++ '.' :: c) ∧ a ≠ [] ∧ b ≠ [] ∧ c ≠ [] ∧
        (∀ x ∈ a, emailAtomChar x = true) ∧ (∀ x ∈ b, emailAtomChar x = true) ∧
        ∀ x ∈ c, emailAtomChar x = true := by
  unfold isValidEmail
  rcases hs : s.data with _ | ⟨x, l⟩
  · refine iff_of_false (by simp [emailRegexMatch]) ?_
    rintro ⟨a, b, c, heq, -⟩
    exact absurd heq (by simp)
  · simp only [emailRegexMatch, Bool.and_eq_true]
    constructor
    · rintro ⟨hatom, hrest⟩
      obtain ⟨a, r, heq, ha, hdom⟩ := (localRestMatch_iff l).mp hrest
      obtain ⟨b, c, heqr, hbne, hcne, hb, hcall⟩ := (domainMatch_iff r).mp hdom
      subst heqr
      exact ⟨x :: a, b, c, by simp [heq], by simp, hbne, hcne,
        by simpa [hatom] using ha, hb, hcall⟩
    · rintro ⟨a, b, c, heq, hane, hbne, hcne, ha, hb, hcall⟩
      cases a with
      | nil => exact absurd rfl hane
      | cons y a' =>
          simp only [List.cons_append, List.cons.injEq] at heq
          obtain ⟨h₁, h₂⟩ := heq
          subst h₁
          refine ⟨ha x (by simp), (localRestMatch_iff l).mpr
            ⟨a', b ++ '.' :: c, h₂, fun z hz => ha z (by simp [hz]), ?_⟩⟩
          exact (domainMatch_iff _).mpr ⟨b, c, rfl, hbne, hcne, hb, hcall⟩

/-! ## Claim theorems: smooth scroll (C1) -/

/-- C1 counterexample: on a click on `#contact` with an existing target
(and `history.pushState` available), the handler updates the URL with
`history.pushState` — which adds a new session history entry — and not
with a replacing action, contradicting the claim that the fragment is
replaced without adding a history entry. -/
theorem anchorClick_pushes_history_entry :
    (anchorClickHandler "#contact" true true).historyAction = HistoryAction.pushed ∧
    (anchorClickHandler "#contact" true true).historyAction ≠ HistoryAction.replaced := by
  decide

/-- C1 (amended): for a click on an in-page anchor link (href starting
with `#`, not the bare `#`) whose target exists, the handler prevents
default navigation, scrolls the target into view, focuses it with
`preventScroll`, and updates the URL fragment via `history.pushState`
(adding a new history entry) when `pushState` is available; when the
target does not exist, default anchor behavior applies unmodified. -/
theorem anchorClick_behavior (href : String) (targetExists pushSupported : Bool)
    (_hanchor : href.data.head? = some '#') (hbare : href ≠ "#") :
    (targetExists = true →
        anchorClickHandler href targetExists pushSupported =
          { preventedDefault := true, scrolledIntoView := true, focusedTarget := true,
            focusPreventScroll := true,
            historyAction :=
              if pushSupported then HistoryAction.pushed else HistoryAction.none }) ∧
    (targetExists = false →
        anchorClickHandler href targetExists pushSupported = defaultClick) := by
  constructor <;> intro h <;> subst h <;> simp [anchorClickHandler, hbare]

/-- Witness for C1 at the concrete link `#home`. -/
theorem anchorClick_behavior_witness :
    anchorClickHandler "#home" true true =
      { preventedDefault := true, scrolledIntoView := true, focusedTarget := true,
        focusPreventScroll := true, historyAction := HistoryAction.pushed } ∧
    anchorClickHandler "#gone" false true = defaultClick :=
  ⟨by
      have h := (anchorClick_behavior "#home" true true (by decide) (by decide)).1 rfl
      simpa using h,
   (anchorClick_behavior "#missing" false true (by decide) (by decide)).2 rfl⟩

/-! ## Claim theorems: scroll-triggered reveal (C7) -/

/-- C7: over any sequence of intersection notifications, an observed
element receives the revealed state at most once; it is revealed exactly
when some notification intersects; and once revealed the state is never
removed afterwards, however often the element leaves and re-enters the
viewport (it is unobserved after the first reveal). -/
theorem reveal_applied_exactly_once (events : List Bool) :
    revealCount revealInit events ≤ 1 ∧
    ((revealRun revealInit events).revealed = true ↔ true ∈ events) ∧
    ((revealRun revealInit events).revealed = true →
        (revealRun revealInit events).observed = false) ∧
    (∀ (s : RevealState) (more : List Bool), s.revealed = true →
        (revealRun s more).revealed = true) := by
  have hmono : ∀ (s : RevealState) (more : List Bool), s.revealed = true →
      (revealRun s more).revealed = true := by
    intro s more
    induction more generalizing s with
    | nil => exact fun h => h
    | cons e es ih =>
        intro h
        simp only [revealRun, List.foldl_cons]
        exact ih _ (revealStep_mono s e h)
  have hfalse : revealStep revealInit false = revealInit := rfl
  have htrue : revealStep revealInit true = ⟨false, true⟩ := rfl
  refine ⟨?_, ?_, ?_, hmono⟩
  · induction events with
    | nil => simp [revealCount]
    | cons e es ih =>
        cases e with
        | true =>
            show (if (revealStep revealInit true).revealed && !revealInit.revealed
                then 1 else 0) + revealCount (revealStep revealInit true) es ≤ 1
            rw [htrue, revealCount_unobserved ⟨false, true⟩ rfl es]
            simp [revealInit]
        | false =>
            show (if (revealStep revealInit false).revealed && !revealInit.revealed
                then 1 else 0) + revealCount (revealStep revealInit false) es ≤ 1
            rw [hfalse]
            simpa [revealInit] using ih
  · induction events with
    | nil => simp [revealRun, revealInit]
    | cons e es ih =>
        cases e with
        | true =>
            show (revealRun (revealStep revealInit true) es).revealed = true ↔
              true ∈ (true :: es)
            rw [htrue, revealRun_unobserved ⟨false, true⟩ rfl es]
            simp
        | false =>
            show (revealRun (revealStep revealInit false) es).revealed = true ↔
              true ∈ (false :: es)
            rw [hfalse]
            simpa using ih
  · induction events with
    | nil => simp [revealRun, revealInit]
    | cons e es ih =>
        cases e with
        | true =>
            show (revealRun (revealStep revealInit true) es).revealed = true →
              (revealRun (revealStep revealInit true) es).observed = false
            rw [htrue, revealRun_unobserved ⟨false, true⟩ rfl es]
            intro _
            rfl
        | false =>
            show (revealRun (revealStep revealInit false) es).revealed = true →
              (revealRun (revealStep revealInit false) es).observed = false
            rw [hfalse]
            exact ih

/-- Witness for C7 on a concrete enter/leave/re-enter sequence. -/
theorem reveal_applied_exactly_once_witness :
    revealCount revealInit [false, true, false, true] ≤ 1 ∧
    (revealRun (⟨false, true⟩ : RevealState) [false, true]).revealed = true :=
  ⟨(reveal_applied_exactly_once [false, true, false, true]).1,
   (reveal_applied_exactly_once [false, true, false, true]).2.2.2 ⟨false, true⟩
      [false, true] rfl⟩

/-! ## Mobile-menu invariants (C6, C10) -/

/-- Replacing a list element by one with the same predicate value leaves
the predicate count unchanged. -/
theorem countP_set_eq {α : Type} (p : α → Bool) :
    ∀ (l : List α) (i : Nat) (b b' : α), l[i]? = some b → p b' = p b →
      (l.set i b').countP p = l.countP p := by
  intro l
  induction l with
  | nil => intro i b b' h _; simp at h
  | cons x xs ih =>
      intro i b b' h hpb
      cases i with
      | zero =>
          simp only [List.getElem?_cons_zero, Option.some.injEq] at h
          subst h
          simp [List.countP_cons, hpb]
      | succ i =>
          simp only [List.getElem?_cons_succ] at h
          simp [List.countP_cons, ih i b b' h hpb]

/-- Replacing a list element by one the predicate rejects cannot increase
the predicate count. -/
theorem countP_set_le {α : Type} (p : α → Bool) :
    ∀ (l : List α) (i : Nat) (b' : α), p b' = false →
      (l.set i b').countP p ≤ l.countP p := by
  intro l
  induction l with
  | nil => intro i b' _; simp
  | cons x xs ih =>
      intro i b' hpb
      cases i with
      | zero => simp [List.countP_cons, hpb]
      | succ i =>
          simp only [List.set_cons_succ, List.countP_cons]
          exact Nat.add_le_add_right (ih i b' hpb) _

/-- `findInDom` misses exactly when no button is attached. -/
theorem findInDom_eq_none (l : List ButtonState) :
    findInDom l = Option.none ↔ ∀ b ∈ l, b.inDom = false := by
  induction l with
  | nil => simp [findInDom]
  | cons b rest ih =>
      by_cases hb : b.inDom <;>
        simp [findInDom, hb, ih, Option.map_eq_none']

/-- A hit of `findInDom` names an attached button. -/
theorem findInDom_some :
    ∀ (l : List ButtonState) (i : Nat), findInDom l = some i →
      ∃ b, l[i]? = some b ∧ b.inDom = true := by
  intro l
  induction l with
  | nil => intro i h; simp [findInDom] at h
  | cons b rest ih =>
      intro i h
      by_cases hb : b.inDom
      · simp only [findInDom, hb, if_true, Option.some.injEq] at h
        subst h
        exact ⟨b, by simp, hb⟩
      · simp only [findInDom, hb, Bool.false_eq_true, if_false, Option.map_eq_some'] at h
        obtain ⟨j, hj, rfl⟩ := h
        obtain ⟨b', hb', hdom⟩ := ih j hj
        exact ⟨b', by simpa using hb', hdom⟩

/-- `buttonClick` never changes which buttons are attached, how many
buttons exist, or how many document-level listeners are registered. -/
theorem buttonClick_preserves (s : MenuSys) (i : Nat) :
    (buttonClick s i).buttons.length = s.buttons.length ∧
    inDomCount (buttonClick s i) = inDomCount s ∧
    (buttonClick s i).docClickListeners = s.docClickListeners ∧
    (buttonClick s i).docKeydownListeners = s.docKeydownListeners := by
  unfold buttonClick
  rcases h : s.buttons[i]? with _ | b
  · exact ⟨rfl, rfl, rfl, rfl⟩
  · exact ⟨by simp, countP_set_eq _ s.buttons i b _ h rfl, rfl, rfl⟩

/-- A document-level listener cascade (outside click or Escape) never
changes which buttons exist, how many are attached, or the listener
counts. -/
theorem outsideFold_preserves (idxs : List Nat) (s : MenuSys) :
    ((idxs.foldl outsideClickListener s).buttons.length = s.buttons.length) ∧
    inDomCount (idxs.foldl outsideClickListener s) = inDomCount s ∧
    (idxs.foldl outsideClickListener s).docClickListeners = s.docClickListeners ∧
    (idxs.foldl outsideClickListener s).docKeydownListeners = s.docKeydownListeners := by
  induction idxs generalizing s with
  | nil => exact ⟨rfl, rfl, rfl, rfl⟩
  | cons i idxs ih =>
      have hstep : (outsideClickListener s i).buttons.length = s.buttons.length ∧
          inDomCount (outsideClickListener s i) = inDomCount s ∧
          (outsideClickListener s i).docClickListeners = s.docClickListeners ∧
          (outsideClickListener s i).docKeydownListeners = s.docKeydownListeners := by
        unfold outsideClickListener
        split
        · exact buttonClick_preserves s i
        · exact ⟨rfl, rfl, rfl, rfl⟩
      obtain ⟨h₁, h₂, h₃, h₄⟩ := ih (outsideClickListener s i)
      simp only [List.foldl_cons]
      exact ⟨h₁.trans hstep.1, h₂.trans hstep.2.1, h₃.trans hstep.2.2.1,
        h₄.trans hstep.2.2.2⟩

/-- Unfolding equation: a resize below the threshold with no attached
toggle creates the button. -/
theorem resizeStep_create (s : MenuSys) (w : Nat)
    (hf : inDomIdx { s with width := w } = Option.none) (hw : w < 768) :
    resizeStep s w = createButton { s with width := w } := by
  unfold resizeStep
  dsimp only
  rw [hf]
  simp [hw]

/-- Unfolding equation: a resize to at least the threshold with no
attached toggle only records the new width. -/
theorem resizeStep_keep_none (s : MenuSys) (w : Nat)
    (hf : inDomIdx { s with width := w } = Option.none) (hw : ¬ w < 768) :
    resizeStep s w = { s with width := w } := by
  unfold resizeStep
  dsimp only
  rw [hf]
  simp [hw]

/-- Unfolding equation: a resize to at least the threshold with an
attached toggle detaches that button and clears the nav class and
`aria-hidden` (the inline display style stays). -/
theorem resizeStep_remove (s : MenuSys) (w : Nat) (i : Nat) (b : ButtonState)
    (hf : inDomIdx { s with width := w } = some i)
    (hg : s.buttons[i]? = some b) (hw : 768 ≤ w) :
    resizeStep s w = { s with
      width := w
      buttons := s.buttons.set i { b with inDom := false }
      navClass := false
      ariaHidden := Option.none } := by
  unfold resizeStep
  dsimp only
  rw [hf]
  have hg' : ({ s with width := w } : MenuSys).buttons[i]? = some b := hg
  simp [ge_iff_le, hw, hg']

/-- Unfolding equation: a resize below the threshold with an attached
toggle only records the new width. -/
theorem resizeStep_keep_some (s : MenuSys) (w : Nat) (i : Nat)
    (hf : inDomIdx { s with width := w } = some i) (hw : ¬ 768 ≤ w) :
    resizeStep s w = { s with width := w } := by
  unfold resizeStep
  dsimp only
  rw [hf]
  simp [ge_iff_le, hw]

/-- Unfolding equation: clicking a button index that names no button does
nothing. -/
theorem buttonClick_none (s : MenuSys) (i : Nat)
    (hg : s.buttons[i]? = Option.none) : buttonClick s i = s := by
  unfold buttonClick
  rw [hg]

/-- Unfolding equation for the click handler on an existing button. -/
theorem buttonClick_some (s : MenuSys) (i : Nat) (b : ButtonState)
    (hg : s.buttons[i]? = some b) :
    buttonClick s i = { s with
      buttons := s.buttons.set i { b with ariaExpanded := !b.ariaExpanded }
      navClass := !s.navClass
      ariaHidden := some b.ariaExpanded
      display := if b.ariaExpanded then Display.hiddenNone else Display.flex } := by
  unfold buttonClick
  rw [hg]

/-- Unfolding equation: a user toggle click with no attached button does
nothing. -/
theorem toggleClick_none (s : MenuSys) (hf : inDomIdx s = Option.none) :
    toggleClick s = s := by
  unfold toggleClick
  rw [hf]

/-- Unfolding equation: a user toggle click fires the attached button's
handler. -/
theorem toggleClick_some (s : MenuSys) (i : Nat) (hf : inDomIdx s = some i) :
    toggleClick s = buttonClick s i := by
  unfold toggleClick
  rw [hf]

/-- Every event preserves "at most one toggle attached".  Creation is
guarded by a `querySelector` miss, removal detaches, clicks only flip
attributes. -/
theorem inDomCount_step (s : MenuSys) (e : MenuEvent) (h : inDomCount s ≤ 1) :
    inDomCount (menuStep s e) ≤ 1 := by
  cases e with
  | resize w =>
      show inDomCount (resizeStep s w) ≤ 1
      rcases hf : inDomIdx { s with width := w } with _ | i
      · by_cases hw : w < 768
        · rw [resizeStep_create s w hf hw]
          have hzero : s.buttons.countP (·.inDom) = 0 := by
            refine List.countP_eq_zero.mpr fun b hb => ?_
            have hb' := (findInDom_eq_none s.buttons).mp hf b hb
            simp [hb']
          show (s.buttons ++
              [({ ariaExpanded := false, inDom := true } : ButtonState)]).countP
              (·.inDom) ≤ 1
          rw [List.countP_append, hzero]
          simp [List.countP_cons]
        · rw [resizeStep_keep_none s w hf hw]
          exact h
      · by_cases hw : 768 ≤ w
        · obtain ⟨b, hg, hbdom⟩ := findInDom_some s.buttons i hf
          rw [resizeStep_remove s w i b hf hg hw]
          exact le_trans (countP_set_le (·.inDom) s.buttons i
            ({ ariaExpanded := b.ariaExpanded, inDom := false } : ButtonState) rfl) h
        · rw [resizeStep_keep_some s w i hf hw]
          exact h
  | toggleClick =>
      show inDomCount (toggleClick s) ≤ 1
      unfold toggleClick
      rcases hf : inDomIdx s with _ | i
      · exact h
      · rw [(buttonClick_preserves s i).2.1]
        exact h
  | outsideClick =>
      show inDomCount (outsideClick s) ≤ 1
      unfold outsideClick
      rw [(outsideFold_preserves _ s).2.1]
      exact h
  | escapeKey =>
      show inDomCount (escapeKey s) ≤ 1
      unfold escapeKey
      rw [(outsideFold_preserves _ s).2.1]
      exact h

/-- Runs preserve "at most one toggle attached". -/
theorem menuRun_inDomCount (evs : List MenuEvent) (s : MenuSys)
    (h : inDomCount s ≤ 1) : inDomCount (menuRun s evs) ≤ 1 := by
  induction evs generalizing s with
  | nil => exact h
  | cons e evs ih => exact ih (menuStep s e) (inDomCount_step s e h)

/-- The initial state has at most one toggle attached. -/
theorem initMobileMenu_inDomCount (w0 : Nat) :
    inDomCount (initMobileMenu w0) ≤ 1 := by
  unfold initMobileMenu
  split
  · simp [inDomCount, createButton, List.countP_cons]
  · simp [inDomCount]

/-- Strengthened consistency used as the inductive invariant while at most
one button was ever created: every attached toggle agrees with both the
nav's class and the menu's visibility, and when no toggle is attached the
`mobile-menu-open` class is absent. -/
def menuSynced (s : MenuSys) : Prop :=
  (∀ b ∈ s.buttons, b.inDom = true →
      s.navClass = b.ariaExpanded ∧ menuVisible s = b.ariaExpanded) ∧
  ((∀ b ∈ s.buttons, b.inDom = false) → s.navClass = false)

/-- No event removes a button from the (ever-created) button list. -/
theorem menuStep_length_mono (s : MenuSys) (e : MenuEvent) :
    s.buttons.length ≤ (menuStep s e).buttons.length := by
  cases e with
  | resize w =>
      show s.buttons.length ≤ (resizeStep s w).buttons.length
      rcases hf : inDomIdx { s with width := w } with _ | i
      · by_cases hw : w < 768
        · rw [resizeStep_create s w hf hw]
          show s.buttons.length ≤ (s.buttons ++
            [({ ariaExpanded := false, inDom := true } : ButtonState)]).length
          simp
        · rw [resizeStep_keep_none s w hf hw]
      · by_cases hw : 768 ≤ w
        · obtain ⟨b, hg, -⟩ := findInDom_some s.buttons i hf
          rw [resizeStep_remove s w i b hf hg hw]
          show s.buttons.length ≤ (s.buttons.set i
            ({ ariaExpanded := b.ariaExpanded, inDom := false } : ButtonState)).length
          simp
        · rw [resizeStep_keep_some s w i hf hw]
  | toggleClick =>
      show s.buttons.length ≤ (toggleClick s).buttons.length
      rcases hf : inDomIdx s with _ | i
      · rw [toggleClick_none s hf]
      · rw [toggleClick_some s i hf, (buttonClick_preserves s i).1]
  | outsideClick =>
      show s.buttons.length ≤ (outsideClick s).buttons.length
      unfold outsideClick
      rw [(outsideFold_preserves _ s).1]
  | escapeKey =>
      show s.buttons.length ≤ (escapeKey s).buttons.length
      unfold escapeKey
      rw [(outsideFold_preserves _ s).1]

/-- The listener cascade preserves consistency while exactly one button
exists. -/
theorem menuSynced_fold_one (s : MenuSys) (b : ButtonState)
    (hbl : s.buttons = [b]) (hsync : menuSynced s) :
    menuSynced ((List.range s.buttons.length).foldl outsideClickListener s) := by
  have hrange : List.range s.buttons.length = [0] := by
    rw [hbl]
    rfl
  rw [hrange]
  show menuSynced (outsideClickListener s 0)
  unfold outsideClickListener
  rcases hnc : s.navClass with _ | _
  · simpa using hsync
  · have hg0 : s.buttons[0]? = some b := by
      rw [hbl]
      simp
    cases hdom : b.inDom with
    | false =>
        have hnc' : s.navClass = false := hsync.2 (by
          rw [hbl]
          intro b' hb'
          simp only [List.mem_singleton] at hb'
          subst hb'
          exact hdom)
        rw [hnc'] at hnc
        cases hnc
    | true =>
        have hce := hsync.1 b (by rw [hbl]; simp) hdom
        have hexp : b.ariaExpanded = true := by
          rw [← hce.1, hnc]
        simp only [if_true]
        rw [buttonClick_some s 0 b hg0]
        constructor
        · intro b' hb' hd'
          simp only [hbl, List.set_cons_zero, List.mem_singleton] at hb'
          subst hb'
          refine ⟨by simp [hnc, hexp], ?_⟩
          show menuVisible _ = !b.ariaExpanded
          simp [menuVisible, hexp]
        · intro hall
          have := hall { b with ariaExpanded := !b.ariaExpanded } (by
            rw [hbl]
            simp)
          rw [hdom] at this
          cases this

/-- One event preserves consistency, as long as the whole run has created
at most one button (the bound is imposed on the post-state; button lists
never shrink). -/
theorem menuSynced_step (s : MenuSys) (e : MenuEvent)
    (h : s.buttons.length ≤ 1 → menuSynced s)
    (hlen : (menuStep s e).buttons.length ≤ 1) :
    menuSynced (menuStep s e) := by
  have hpre : s.buttons.length ≤ 1 := le_trans (menuStep_length_mono s e) hlen
  have hsync := h hpre
  rcases hbl : s.buttons with _ | ⟨b, rest⟩
  · -- no button ever created
    have hfn : inDomIdx s = Option.none := by
      unfold inDomIdx
      rw [hbl]
      rfl
    have hnc : s.navClass = false := hsync.2 (by
      rw [hbl]
      intro b' hb'
      cases hb')
    cases e with
    | resize w =>
        show menuSynced (resizeStep s w)
        by_cases hw : w < 768
        · rw [resizeStep_create s w hfn hw]
          constructor
          · intro b' hb' hd'
            simp only [createButton, hbl, List.nil_append, List.mem_singleton] at hb'
            subst hb'
            exact ⟨by simp [createButton, hnc], by simp [createButton, menuVisible]⟩
          · intro _
            simp [createButton, hnc]
        · rw [resizeStep_keep_none s w hfn hw]
          constructor
          · intro b' hb' _
            rw [show ({ s with width := w } : MenuSys).buttons = s.buttons from rfl,
              hbl] at hb'
            cases hb'
          · intro _
            exact hnc
    | toggleClick =>
        show menuSynced (toggleClick s)
        rw [toggleClick_none s hfn]
        exact hsync
    | outsideClick =>
        show menuSynced ((List.range s.buttons.length).foldl outsideClickListener s)
        rw [hbl]
        simpa using hsync
    | escapeKey =>
        show menuSynced ((List.range s.buttons.length).foldl outsideClickListener s)
        rw [hbl]
        simpa using hsync
  · -- exactly one button ever created
    rcases rest with _ | ⟨b₂, r₂⟩
    swap
    · rw [hbl] at hpre
      simp at hpre
    have hbl₁ : s.buttons = [b] := hbl
    have hg0 : s.buttons[0]? = some b := by
      rw [hbl₁]
      simp
    cases hdom : b.inDom with
    | true =>
        have hfi : inDomIdx s = some 0 := by
          unfold inDomIdx
          rw [hbl₁]
          simp [findInDom, hdom]
        have hce := hsync.1 b (by rw [hbl₁]; simp) hdom
        cases e with
        | resize w =>
            show menuSynced (resizeStep s w)
            by_cases hw : 768 ≤ w
            · rw [resizeStep_remove s w 0 b hfi hg0 hw]
              constructor
              · intro b' hb' hd'
                simp only [hbl₁, List.set_cons_zero, List.mem_singleton] at hb'
                subst hb'
                cases hd'
              · intro _
                rfl
            · rw [resizeStep_keep_some s w 0 hfi hw]
              constructor
              · intro b' hb' hd'
                rw [show ({ s with width := w } : MenuSys).buttons = s.buttons
                  from rfl, hbl₁] at hb'
                simp only [List.mem_singleton] at hb'
                subst hb'
                exact ⟨hce.1, hce.2⟩
              · intro hall
                have hx := hall b (by
                  rw [show ({ s with width := w } : MenuSys).buttons = s.buttons
                    from rfl, hbl₁]
                  simp)
                rw [hdom] at hx
                cases hx
        | toggleClick =>
            show menuSynced (toggleClick s)
            rw [toggleClick_some s 0 hfi, buttonClick_some s 0 b hg0]
            constructor
            · intro b' hb' hd'
              simp only [hbl₁, List.set_cons_zero, List.mem_singleton] at hb'
              subst hb'
              refine ⟨by simp [hce.1], ?_⟩
              show menuVisible _ = !b.ariaExpanded
              cases hexp : b.ariaExpanded <;> simp [menuVisible, hexp]
            · intro hall
              have hx := hall { b with ariaExpanded := !b.ariaExpanded } (by
                rw [hbl₁]
                simp)
              rw [hdom] at hx
              cases hx
        | outsideClick =>
            show menuSynced ((List.range s.buttons.length).foldl outsideClickListener s)
            exact menuSynced_fold_one s b hbl₁ hsync
        | escapeKey =>
            show menuSynced ((List.range s.buttons.length).foldl outsideClickListener s)
            exact menuSynced_fold_one s b hbl₁ hsync
    | false =>
        have hfn : inDomIdx s = Option.none := by
          unfold inDomIdx
          rw [hbl₁]
          simp [findInDom, hdom]
        have hnc : s.navClass = false := hsync.2 (by
          rw [hbl₁]
          intro b' hb'
          simp only [List.mem_singleton] at hb'
          subst hb'
          exact hdom)
        cases e with
        | resize w =>
            show menuSynced (resizeStep s w)
            by_cases hw : w < 768
            · rw [resizeStep_create s w hfn hw]
              constructor
              · intro b' hb' hd'
                have hb2 : b' = b ∨
                    b' = ({ ariaExpanded := false, inDom := true } : ButtonState) := by
                  simpa [createButton, hbl₁] using hb'
                rcases hb2 with rfl | rfl
                · rw [hdom] at hd'
                  cases hd'
                · exact ⟨by simp [createButton, hnc],
                    by simp [createButton, menuVisible]⟩
              · intro _
                simp [createButton, hnc]
            · rw [resizeStep_keep_none s w hfn hw]
              constructor
              · intro b' hb' hd'
                rw [show ({ s with width := w } : MenuSys).buttons = s.buttons
                  from rfl, hbl₁] at hb'
                simp only [List.mem_singleton] at hb'
                subst hb'
                rw [hdom] at hd'
                cases hd'
              · intro _
                exact hnc
        | toggleClick =>
            show menuSynced (toggleClick s)
            rw [toggleClick_none s hfn]
            exact hsync
        | outsideClick =>
            show menuSynced ((List.range s.buttons.length).foldl outsideClickListener s)
            exact menuSynced_fold_one s b hbl₁ hsync
        | escapeKey =>
            show menuSynced ((List.range s.buttons.length).foldl outsideClickListener s)
            exact menuSynced_fold_one s b hbl₁ hsync

/-- The initial state of the module is consistent. -/
theorem initMobileMenu_synced (w0 : Nat) : menuSynced (initMobileMenu w0) := by
  unfold initMobileMenu
  split
  · constructor
    · intro b hb _
      simp only [createButton, List.nil_append, List.mem_singleton] at hb
      subst hb
      exact ⟨rfl, rfl⟩
    · intro _
      rfl
  · exact ⟨fun b hb => absurd hb (List.not_mem_nil b), fun _ => rfl⟩

/-- Runs preserve consistency under the bound on created buttons. -/
theorem menuRun_synced (evs : List MenuEvent) (s : MenuSys)
    (h : s.buttons.length ≤ 1 → menuSynced s) :
    (menuRun s evs).buttons.length ≤ 1 → menuSynced (menuRun s evs) := by
  induction evs generalizing s with
  | nil => exact h
  | cons e evs ih =>
      exact ih (menuStep s e) (fun hl => menuSynced_step s e h hl)

/-- Splitting a run at an append boundary. -/
theorem menuRun_append (s : MenuSys) (l₁ l₂ : List MenuEvent) :
    menuRun s (l₁ ++ l₂) = menuRun (menuRun s l₁) l₂ :=
  List.foldl_append _ _ _ _

/-! ## Listener bookkeeping (C10) -/

/-- In every state the document-level listener counters equal the number
of buttons ever created: each `createMobileMenuButton` call registers
exactly one pair, and nothing ever unregisters one. -/
def ListenersInv (s : MenuSys) : Prop :=
  s.docClickListeners = s.buttons.length ∧
  s.docKeydownListeners = s.buttons.length

/-- One event preserves the listener bookkeeping. -/
theorem listenersInv_step (s : MenuSys) (e : MenuEvent) (h : ListenersInv s) :
    ListenersInv (menuStep s e) := by
  cases e with
  | resize w =>
      show ListenersInv (resizeStep s w)
      rcases hf : inDomIdx { s with width := w } with _ | i
      · by_cases hw : w < 768
        · rw [resizeStep_create s w hf hw]
          exact ⟨by simpa [createButton] using congrArg Nat.succ h.1,
            by simpa [createButton] using congrArg Nat.succ h.2⟩
        · rw [resizeStep_keep_none s w hf hw]
          exact h
      · by_cases hw : 768 ≤ w
        · obtain ⟨b, hg, -⟩ := findInDom_some s.buttons i hf
          rw [resizeStep_remove s w i b hf hg hw]
          exact ⟨by simpa using h.1, by simpa using h.2⟩
        · rw [resizeStep_keep_some s w i hf hw]
          exact h
  | toggleClick =>
      show ListenersInv (toggleClick s)
      rcases hf : inDomIdx s with _ | i
      · rw [toggleClick_none s hf]
        exact h
      · rw [toggleClick_some s i hf]
        obtain ⟨h₁, -, h₃, h₄⟩ := buttonClick_preserves s i
        exact ⟨h₃.trans (h.1.trans h₁.symm), h₄.trans (h.2.trans h₁.symm)⟩
  | outsideClick =>
      show ListenersInv (outsideClick s)
      unfold outsideClick
      obtain ⟨h₁, -, h₃, h₄⟩ := outsideFold_preserves (List.range s.buttons.length) s
      exact ⟨h₃.trans (h.1.trans h₁.symm), h₄.trans (h.2.trans h₁.symm)⟩
  | escapeKey =>
      show ListenersInv (escapeKey s)
      unfold escapeKey
      obtain ⟨h₁, -, h₃, h₄⟩ := outsideFold_preserves (List.range s.buttons.length) s
      exact ⟨h₃.trans (h.1.trans h₁.symm), h₄.trans (h.2.trans h₁.symm)⟩

/-- Runs preserve the listener bookkeeping. -/
theorem menuRun_listenersInv (evs : List MenuEvent) (s : MenuSys)
    (h : ListenersInv s) : ListenersInv (menuRun s evs) := by
  induction evs generalizing s with
  | nil => exact h
  | cons e evs ih => exact ih (menuStep s e) (listenersInv_step s e h)

/-- The initial state satisfies the listener bookkeeping. -/
theorem initMobileMenu_listenersInv (w0 : Nat) : ListenersInv (initMobileMenu w0) := by
  unfold initMobileMenu
  split
  · exact ⟨rfl, rfl⟩
  · exact ⟨rfl, rfl⟩

/-- A resize cycle below and back above the 768px threshold, iterated. -/
def crossCycles : Nat → List MenuEvent
  | 0 => []
  | n + 1 => crossCycles n ++ [MenuEvent.resize 600, MenuEvent.resize 1024]

/-- The state after `n` threshold crossings: `n` detached buttons (hence
`n` orphaned listener pairs), menu markup reset. -/
def drainedState (n : Nat) : MenuSys :=
  { width := 1024
    buttons := List.replicate n { ariaExpanded := false, inDom := false }
    navClass := false
    ariaHidden := Option.none
    display := if n = 0 then Display.unset else Display.hiddenNone
    docClickListeners := n
    docKeydownListeners := n }

/-- A list of detached buttons yields no `querySelector` hit. -/
theorem findInDom_replicate (n : Nat) :
    findInDom (List.replicate n
      ({ ariaExpanded := false, inDom := false } : ButtonState)) = Option.none :=
  (findInDom_eq_none _).mpr fun b hb => by rw [List.eq_of_mem_replicate hb]

/-- With `n` detached buttons followed by an attached one, `querySelector`
finds the attached one at index `n`. -/
theorem findInDom_replicate_append (n : Nat) :
    findInDom (List.replicate n
        ({ ariaExpanded := false, inDom := false } : ButtonState) ++
      [({ ariaExpanded := false, inDom := true } : ButtonState)]) = some n := by
  induction n with
  | zero => rfl
  | succ n ih =>
      rw [List.replicate_succ, List.cons_append]
      simp [findInDom, ih]

/-- Looking up the element appended after `l` at index `l.length`. -/
theorem getElem?_append_last {α : Type} (l : List α) (x : α) :
    (l ++ [x])[l.length]? = some x := by
  induction l with
  | nil => rfl
  | cons a l ih => simp [ih]

/-- Updating the element appended after `l` at index `l.length`. -/
theorem set_append_last {α : Type} (l : List α) (x y : α) :
    (l ++ [x]).set l.length y = l ++ [y] := by
  induction l with
  | nil => rfl
  | cons a l ih => simp [ih]

/-- Explicit form of the state reached by `n` threshold-crossing cycles
from a 1024px-wide start. -/
theorem crossCycles_state (n : Nat) :
    menuRun (initMobileMenu 1024) (crossCycles n) = drainedState n := by
  induction n with
  | zero => decide
  | succ n ih =>
      have hstep1 : menuStep (drainedState n) (MenuEvent.resize 600) =
          createButton { drainedState n with width := 600 } :=
        resizeStep_create (drainedState n) 600 (findInDom_replicate n) (by norm_num)
      have hf2 : inDomIdx { createButton { drainedState n with width := 600 } with
          width := 1024 } = some n := findInDom_replicate_append n
      have hg2 : (createButton { drainedState n with width := 600 }).buttons[n]? =
          some { ariaExpanded := false, inDom := true } := by
        have hx := getElem?_append_last (List.replicate n
          ({ ariaExpanded := false, inDom := false } : ButtonState))
          ({ ariaExpanded := false, inDom := true } : ButtonState)
        rwa [List.length_replicate] at hx
      have hstep2 : menuStep (createButton { drainedState n with width := 600 })
          (MenuEvent.resize 1024) = drainedState (n + 1) := by
        rw [show menuStep (createButton { drainedState n with width := 600 })
            (MenuEvent.resize 1024) =
          resizeStep (createButton { drainedState n with width := 600 }) 1024 from rfl]
        rw [resizeStep_remove _ 1024 n { ariaExpanded := false, inDom := true }
          hf2 hg2 (by norm_num)]
        have hset : ((createButton { drainedState n with width := 600 }).buttons).set n
            ({ ariaExpanded := false, inDom := false } : ButtonState) =
            List.replicate (n + 1)
              ({ ariaExpanded := false, inDom := false } : ButtonState) := by
          show ((List.replicate n
              ({ ariaExpanded := false, inDom := false } : ButtonState) ++
            [({ ariaExpanded := false, inDom := true } : ButtonState)]).set n _) = _
          have hx := set_append_last (List.replicate n
            ({ ariaExpanded := false, inDom := false } : ButtonState))
            ({ ariaExpanded := false, inDom := true } : ButtonState)
            ({ ariaExpanded := false, inDom := false } : ButtonState)
          rw [List.length_replicate] at hx
          rw [hx, ← List.replicate_succ']
        simp [drainedState, createButton, hset, ← List.replicate_succ']
      calc menuRun (initMobileMenu 1024) (crossCycles (n + 1))
          = menuRun (menuRun (initMobileMenu 1024) (crossCycles n))
              [MenuEvent.resize 600, MenuEvent.resize 1024] := by
            rw [show crossCycles (n + 1) =
              crossCycles n ++ [MenuEvent.resize 600, MenuEvent.resize 1024] from rfl,
              menuRun_append]
        _ = menuStep (menuStep (drainedState n) (MenuEvent.resize 600))
              (MenuEvent.resize 1024) := by rw [ih]; rfl
        _ = drainedState (n + 1) := by rw [hstep1, hstep2]

/-! ## Claim theorems: mobile menu (C6, C10) -/

/-- C6 counterexample: the reachable state after opening the menu at
600px, resizing to 1024px (which removes the toggle while it is
expanded), resizing back to 600px (which creates a fresh collapsed
toggle), opening again, and clicking outside — the stale document-level
listener of the removed first toggle closes the menu but flips only its
own (detached) button, so the toggle in the DOM keeps
`aria-expanded="true"` while the menu is hidden: the claimed
visible-iff-expanded invariant fails in a reachable state. -/
theorem menu_invariant_counterexample :
    inDomCount (menuRun (initMobileMenu 600)
      [MenuEvent.toggleClick, MenuEvent.resize 1024, MenuEvent.resize 600,
        MenuEvent.toggleClick, MenuEvent.outsideClick]) = 1 ∧
    ¬ menuConsistent (menuRun (initMobileMenu 600)
      [MenuEvent.toggleClick, MenuEvent.resize 1024, MenuEvent.resize 600,
        MenuEvent.toggleClick, MenuEvent.outsideClick]) := by
  decide

/-- C6 (amended): in every reachable state of the mobile-menu module, at
most one toggle control is attached to the DOM; and as long as at most
one toggle has ever been created (no repeated crossings below the 768px
threshold), the menu is visible exactly when the attached toggle is marked
expanded.  Once a second toggle has been created, the stale document-level
listeners of removed toggles can break that consistency (see the
counterexample theorem). -/
theorem menu_invariant (w0 : Nat) (evs : List MenuEvent) :
    inDomCount (menuRun (initMobileMenu w0) evs) ≤ 1 ∧
    ((menuRun (initMobileMenu w0) evs).buttons.length ≤ 1 →
      menuConsistent (menuRun (initMobileMenu w0) evs)) := by
  constructor
  · exact menuRun_inDomCount evs _ (initMobileMenu_inDomCount w0)
  · intro hlen
    have hs := menuRun_synced evs (initMobileMenu w0)
      (fun _ => initMobileMenu_synced w0) hlen
    intro b hb hd
    exact (hs.1 b hb hd).2

/-- Witness for C6 at a concrete narrow-viewport run with one open/close
round trip. -/
theorem menu_invariant_witness :
    inDomCount (menuRun (initMobileMenu 600)
      [MenuEvent.toggleClick, MenuEvent.escapeKey]) ≤ 1 ∧
    menuConsistent (menuRun (initMobileMenu 600)
      [MenuEvent.toggleClick, MenuEvent.escapeKey]) :=
  ⟨(menu_invariant 600 [MenuEvent.toggleClick, MenuEvent.escapeKey]).1,
    (menu_invariant 600 [MenuEvent.toggleClick, MenuEvent.escapeKey]).2 (by decide)⟩

/-- C10: in every reachable state, the number of registered document-level
click listeners and keydown listeners each equal the number of
`createMobileMenuButton` calls made so far (one pair per call, none ever
unregistered); a resize at or above the 768px threshold — the one that
removes the toggle button — changes neither listener count, nor the list
of buttons ever created, nor the inline display; and after `n` crossings
below 768px (cycles of resize 600 / resize 1024 from a 1024px start)
exactly `n` listener pairs remain registered while no toggle is attached
to the DOM. -/
theorem doc_listeners_accumulate (w0 : Nat) (evs : List MenuEvent) (n : Nat)
    (s : MenuSys) (w : Nat) (hw : 768 ≤ w) :
    ((menuRun (initMobileMenu w0) evs).docClickListeners =
        (menuRun (initMobileMenu w0) evs).buttons.length ∧
      (menuRun (initMobileMenu w0) evs).docKeydownListeners =
        (menuRun (initMobileMenu w0) evs).buttons.length) ∧
    ((resizeStep s w).docClickListeners = s.docClickListeners ∧
      (resizeStep s w).docKeydownListeners = s.docKeydownListeners ∧
      (resizeStep s w).buttons.length = s.buttons.length ∧
      (resizeStep s w).display = s.display) ∧
    (menuRun (initMobileMenu 1024) (crossCycles n)).docClickListeners = n ∧
    (menuRun (initMobileMenu 1024) (crossCycles n)).docKeydownListeners = n ∧
    inDomCount (menuRun (initMobileMenu 1024) (crossCycles n)) = 0 := by
  refine ⟨?_, ?_, ?_, ?_, ?_⟩
  · exact menuRun_listenersInv evs _ (initMobileMenu_listenersInv w0)
  · rcases hf : inDomIdx { s with width := w } with _ | i
    · rw [resizeStep_keep_none s w hf (by omega)]
      exact ⟨rfl, rfl, rfl, rfl⟩
    · obtain ⟨b, hg, -⟩ := findInDom_some s.buttons i hf
      rw [resizeStep_remove s w i b hf hg hw]
      exact ⟨rfl, rfl, by simp, rfl⟩
  · rw [crossCycles_state n]
    rfl
  · rw [crossCycles_state n]
    rfl
  · rw [crossCycles_state n]
    refine List.countP_eq_zero.mpr fun b hb => ?_
    have hb' := List.eq_of_mem_replicate hb
    simp [hb']

/-- Witness for C10: two crossings leave two orphaned listener pairs, and
the removing resize at 800px keeps the listener count. -/
theorem doc_listeners_accumulate_witness :
    (menuRun (initMobileMenu 1024) (crossCycles 2)).docClickListeners = 2 ∧
    (resizeStep (initMobileMenu 600) 800).docClickListeners =
      (initMobileMenu 600).docClickListeners :=
  ⟨(doc_listeners_accumulate 1024 [] 2 (initMobileMenu 600) 800
      (by norm_num)).2.2.1,
    (doc_listeners_accumulate 1024 [] 2 (initMobileMenu 600) 800
      (by norm_num)).2.1.1⟩

/-! ## Debounce semantics (C8)

Under the scheduling discipline of the wrapper, at most one timer is ever
pending and the captured `timeout` variable always names it; the
computation lemmas below make each transition explicit, for both the
wrapper as written (`extraClear := true`) and the standard debounce. -/

/-- Advancing the clock with no pending timer does nothing. -/
theorem fireDue_nil (e : Bool) (t : Nat) (tv : Option Nat) (ni : Nat)
    (f : List (Nat × Nat)) :
    fireDue e t ⟨[], tv, ni, f⟩ = ⟨[], tv, ni, f⟩ := by
  simp [fireDue]

/-- Advancing the clock past the single pending timer fires it; the extra
`clearTimeout` inside the callback acts on an empty timer queue and is a
no-op, whichever version runs. -/
theorem fireDue_single_due (e : Bool) (t : Nat) (ni : Nat)
    (f : List (Nat × Nat)) (tm : Timer) (hdue : tm.fireTime ≤ t) :
    fireDue e t ⟨[tm], some tm.id, ni, f⟩ =
      ⟨[], some tm.id, ni, f ++ [(tm.fireTime, tm.arg)]⟩ := by
  cases e <;> simp [fireDue, hdue, fireTimer, clearTimeoutOn]

/-- Advancing the clock short of the single pending timer does nothing. -/
theorem fireDue_single_pending (e : Bool) (t : Nat) (tv : Option Nat)
    (ni : Nat) (f : List (Nat × Nat)) (tm : Timer)
    (hnd : ¬ tm.fireTime ≤ t) :
    fireDue e t ⟨[tm], tv, ni, f⟩ = ⟨[tm], tv, ni, f⟩ := by
  simp [fireDue, hnd]
  omega

/-- An invocation with no pending timer schedules a fresh one. -/
theorem invoke_nil (e : Bool) (w t k : Nat) (tv : Option Nat) (ni : Nat)
    (f : List (Nat × Nat)) :
    invoke e w ⟨[], tv, ni, f⟩ t k =
      ⟨[{ id := ni, fireTime := t + w, arg := k }], some ni, ni + 1, f⟩ := by
  unfold invoke
  rw [fireDue_nil]
  cases tv <;> simp [clearTimeoutOn]

/-- An invocation after the pending timer came due: the pending call fires
first, then a fresh timer is scheduled. -/
theorem invoke_single_due (e : Bool) (w t k : Nat) (ni : Nat)
    (f : List (Nat × Nat)) (tm : Timer) (hdue : tm.fireTime ≤ t) :
    invoke e w ⟨[tm], some tm.id, ni, f⟩ t k =
      ⟨[{ id := ni, fireTime := t + w, arg := k }], some ni, ni + 1,
        f ++ [(tm.fireTime, tm.arg)]⟩ := by
  unfold invoke
  rw [fireDue_single_due e t ni f tm hdue]
  simp [clearTimeoutOn]

/-- An invocation before the pending timer comes due cancels it and
schedules a fresh one: the pending call never executes. -/
theorem invoke_single_pending (e : Bool) (w t k : Nat) (ni : Nat)
    (f : List (Nat × Nat)) (tm : Timer) (hnd : ¬ tm.fireTime ≤ t) :
    invoke e w ⟨[tm], some tm.id, ni, f⟩ t k =
      ⟨[{ id := ni, fireTime := t + w, arg := k }], some ni, ni + 1, f⟩ := by
  unfold invoke
  rw [fireDue_single_pending e t (some tm.id) ni f tm hnd]
  simp [clearTimeoutOn]

/-- Draining an empty timer queue does nothing. -/
theorem finishTimers_nil (e : Bool) (tv : Option Nat) (ni : Nat)
    (f : List (Nat × Nat)) :
    finishTimers e ⟨[], tv, ni, f⟩ = ⟨[], tv, ni, f⟩ := by
  simp [finishTimers]

/-- Draining a queue holding the single pending timer fires it; again the
extra `clearTimeout` in the callback is a no-op. -/
theorem finishTimers_single (e : Bool) (ni : Nat) (f : List (Nat × Nat))
    (tm : Timer) :
    finishTimers e ⟨[tm], some tm.id, ni, f⟩ =
      ⟨[], some tm.id, ni, f ++ [(tm.fireTime, tm.arg)]⟩ := by
  cases e <;> simp [finishTimers, fireTimer, clearTimeoutOn]

/-- The two debounce versions run in lockstep from any state in which at
most one timer is pending and the `timeout` variable names it. -/
theorem runFrom_extra_eq (w : Nat) :
    ∀ (ts : List Nat) (s : DebSt) (k : Nat),
      (s.active = [] ∨ ∃ tm, s.active = [tm] ∧ s.timeoutVar = some tm.id) →
      runFrom true w s k ts = runFrom false w s k ts := by
  intro ts
  induction ts with
  | nil =>
      rintro ⟨a, tv, ni, f⟩ k (h | ⟨tm, h₁, h₂⟩)
      · obtain rfl : a = [] := h
        show finishTimers true _ = finishTimers false _
        rw [finishTimers_nil, finishTimers_nil]
      · obtain rfl : a = [tm] := h₁
        obtain rfl : tv = some tm.id := h₂
        show finishTimers true _ = finishTimers false _
        rw [finishTimers_single, finishTimers_single]
  | cons t ts ih =>
      rintro ⟨a, tv, ni, f⟩ k (h | ⟨tm, h₁, h₂⟩)
      · obtain rfl : a = [] := h
        show runFrom true w (invoke true w _ t k) (k + 1) ts =
          runFrom false w (invoke false w _ t k) (k + 1) ts
        rw [invoke_nil, invoke_nil]
        exact ih _ (k + 1) (Or.inr ⟨_, rfl, rfl⟩)
      · obtain rfl : a = [tm] := h₁
        obtain rfl : tv = some tm.id := h₂
        show runFrom true w (invoke true w _ t k) (k + 1) ts =
          runFrom false w (invoke false w _ t k) (k + 1) ts
        by_cases hdue : tm.fireTime ≤ t
        · rw [invoke_single_due true w t k ni f tm hdue,
            invoke_single_due false w t k ni f tm hdue]
          exact ih _ (k + 1) (Or.inr ⟨_, rfl, rfl⟩)
        · rw [invoke_single_pending true w t k ni f tm hdue,
            invoke_single_pending false w t k ni f tm hdue]
          exact ih _ (k + 1) (Or.inr ⟨_, rfl, rfl⟩)

/-- The fires of the standard debounce, from a state holding the pending
timer of call `k` made at `tprev`, over monotone later invocation
times. -/
theorem runFrom_fired (w : Nat) :
    ∀ (ts : List Nat) (idv k tprev ni : Nat) (f : List (Nat × Nat)),
      (∀ t ∈ ts, tprev ≤ t) → List.Chain' (· ≤ ·) ts →
      (runFrom false w ⟨[{ id := idv, fireTime := tprev + w, arg := k }],
          some idv, ni, f⟩ (k + 1) ts).fired =
        f ++ debounceSpecFires w k (tprev :: ts) := by
  intro ts
  induction ts with
  | nil =>
      intro idv k tprev ni f _ _
      show (finishTimers false _).fired = _
      rw [finishTimers_single false ni f { id := idv, fireTime := tprev + w, arg := k }]
      rfl
  | cons t ts ih =>
      intro idv k tprev ni f hlb hch
      have hpw := (List.chain'_iff_pairwise (R := (· ≤ ·))).mp hch
      have hlb' : ∀ t' ∈ ts, t ≤ t' := fun t' ht' =>
        (List.pairwise_cons.mp hpw).1 t' ht'
      have hch' : List.Chain' (· ≤ ·) ts :=
        (List.chain'_iff_pairwise (R := (· ≤ ·))).mpr
          (List.pairwise_cons.mp hpw).2
      show (runFrom false w (invoke false w _ t (k + 1)) (k + 2) ts).fired = _
      by_cases hdue : tprev + w ≤ t
      · rw [invoke_single_due false w t (k + 1) ni f
          { id := idv, fireTime := tprev + w, arg := k } hdue]
        rw [ih ni (k + 1) t (ni + 1) (f ++ [(tprev + w, k)]) hlb' hch']
        show _ = f ++ ((if tprev + w ≤ t then [(tprev + w, k)] else []) ++
          debounceSpecFires w (k + 1) (t :: ts))
        rw [if_pos hdue, List.append_assoc]
      · rw [invoke_single_pending false w t (k + 1) ni f
          { id := idv, fireTime := tprev + w, arg := k } hdue]
        rw [ih ni (k + 1) t (ni + 1) f hlb' hch']
        show _ = f ++ ((if tprev + w ≤ t then [(tprev + w, k)] else []) ++
          debounceSpecFires w (k + 1) (t :: ts))
        rw [if_neg hdue, List.nil_append]

/-- C8: the debounce wrapper as written, with its redundant second
`clearTimeout` inside the scheduled callback, is behaviorally equivalent
to the standard debounce that clears only before scheduling — the two
versions produce identical states (in particular identical sequences of
`func` executions); and for every monotone sequence of invocation times,
exactly the last invocation of each burst executes, once, `wait` after
that invocation (an invocation is last in its burst when no further
invocation arrives before its timer fires). -/
theorem debounce_extra_clear_equiv (wait : Nat) (ts : List Nat)
    (hts : List.Chain' (· ≤ ·) ts) :
    debounceRun true wait ts = debounceRun false wait ts ∧
    (debounceRun true wait ts).fired = debounceSpecFires wait 0 ts := by
  have heq : debounceRun true wait ts = debounceRun false wait ts :=
    runFrom_extra_eq wait ts debounceInit 0 (Or.inl rfl)
  refine ⟨heq, heq ▸ ?_⟩
  show (runFrom false wait debounceInit 0 ts).fired = debounceSpecFires wait 0 ts
  cases ts with
  | nil => rfl
  | cons t ts =>
      have hpw := (List.chain'_iff_pairwise (R := (· ≤ ·))).mp hts
      have hlb : ∀ t' ∈ ts, t ≤ t' := fun t' ht' =>
        (List.pairwise_cons.mp hpw).1 t' ht'
      have hch : List.Chain' (· ≤ ·) ts :=
        (List.chain'_iff_pairwise (R := (· ≤ ·))).mpr
          (List.pairwise_cons.mp hpw).2
      show (runFrom false wait (invoke false wait debounceInit t 0) 1 ts).fired = _
      rw [show (debounceInit : DebSt) = ⟨[], Option.none, 0, []⟩ from rfl,
        invoke_nil false wait t 0 Option.none 0 []]
      exact runFrom_fired wait ts 0 0 t 1 [] hlb hch

/-- Witness for C8 at a concrete burst: calls at 0 and 3 (3 < 5 apart, so
the first never fires), then at 10 (≥ 5 after 3, so the second fires at 8
and the third at 15). -/
theorem debounce_extra_clear_equiv_witness :
    debounceRun true 5 [0, 3, 10] = debounceRun false 5 [0, 3, 10] ∧
    (debounceRun true 5 [0, 3, 10]).fired = [(8, 1), (15, 2)] :=
  ⟨(debounce_extra_clear_equiv 5 [0, 3, 10] (by simp [List.chain'_cons])).1, by
    rw [(debounce_extra_clear_equiv 5 [0, 3, 10] (by simp [List.chain'_cons])).2]
    rfl⟩

end LandingPage
